import Mathlib

/-!
Verification of the `data-chaincode` repository: two Hyperledger Fabric
contracts (`src/src/assetTransfer.ts`, first part: a sensor-asset contract;
second part: a methane-reading contract) over a key-value world state.

The embedding models:
* the JSON values the contracts build and store (`Json`);
* the write-path encoding `stringify(sortKeysRecursive(x))`, where
  `sortKeysRecursive` is the npm package `sort-keys-recursive` (recursively
  sorts object keys ascending) and `stringify` is `json-stringify-deterministic`
  (compact serialization with object keys in sorted order);
* `JSON.parse` as a fuel-based recursive-descent parser `parseJson`;
* the Fabric world state (`ctx.stub`) as an association list of key/value
  strings, with `getState` / `putState` / `deleteState` / `getStateByRange`;
* every public contract method of both contract classes.

JavaScript numbers pass through the contracts unmodified (no arithmetic is
performed on them); each number is modeled by its canonical JSON text
(spec 4.1(e): a single canonical textual form per numeric value), a `String`
satisfying `numLitOk`.
-/

set_option linter.unusedVariables false
set_option maxRecDepth 40000

/-- A JSON value as the contracts handle them: strings, numbers (represented
by their canonical numeric literal), arrays, and objects whose fields are kept
in insertion order, as JavaScript objects do. -/
inductive Json where
  | jstr (s : String)
  | jnum (lit : String)
  | jarr (elems : List Json)
  | jobj (fields : List (String × Json))

/-- Lexicographic (code-point) comparison of strings as character lists;
models the default JavaScript string comparison used by `Array.prototype.sort`
inside `sort-keys-recursive` and `json-stringify-deterministic`. -/
def lexLeb : List Char → List Char → Bool
  | [], _ => true
  | _ :: _, [] => false
  | a :: as, b :: bs =>
    if a.toNat < b.toNat then true
    else if b.toNat < a.toNat then false
    else lexLeb as bs

/-- Key order on object fields: compare the keys lexicographically. -/
def keyLE (p q : String × Json) : Prop := lexLeb p.1.data q.1.data = true

instance : DecidableRel keyLE := fun p q => inferInstanceAs (Decidable (_ = true))

mutual

/-- The npm package `sort-keys-recursive`: recursively sort the keys of every
object (array order is preserved; values inside arrays are recursed into). -/
def sortKeysRecursive : Json → Json
  | .jstr s => .jstr s
  | .jnum n => .jnum n
  | .jarr xs => .jarr (sortArr xs)
  | .jobj fs => .jobj (List.insertionSort keyLE (sortFields fs))
termination_by structural j => j

def sortArr : List Json → List Json
  | [] => []
  | x :: xs => sortKeysRecursive x :: sortArr xs
termination_by structural xs => xs

def sortFields : List (String × Json) → List (String × Json)
  | [] => []
  | (k, v) :: fs => (k, sortKeysRecursive v) :: sortFields fs
termination_by structural fs => fs

end

/-- Hex digit characters as `JSON.stringify` emits them in `\u00xx` escapes
(code point 48 onward for the digits, 87 + n gives the lowercase letters). -/
def hexDigitChar (n : Nat) : Char :=
  Char.ofNat (if n < 10 then 48 + n else 87 + n)

/-- JSON string escaping of one character, as `JSON.stringify` performs it:
quote and backslash get a backslash escape, the five named control characters
get their short escapes, the remaining control characters get `\u00xx`, and
every other character is emitted verbatim. -/
def escChar (c : Char) : List Char :=
  if c == '"' then ['\\', '"']
  else if c == '\\' then ['\\', '\\']
  else if c == '\x08' then ['\\', 'b']
  else if c == '\x09' then ['\\', 't']
  else if c == '\x0a' then ['\\', 'n']
  else if c == '\x0c' then ['\\', 'f']
  else if c == '\x0d' then ['\\', 'r']
  else if c.toNat < 32 then
    let lo := hexDigitChar (c.toNat % 16)
    let hi := hexDigitChar (c.toNat / 16)
    ['\\', 'u', '0', '0', hi, lo]
  else [c]

def escList : List Char → List Char
  | [] => []
  | c :: cs => escChar c ++ escList cs

mutual

/-- Compact (whitespace-free) JSON serialization in field order, as
`JSON.stringify` emits a value whose objects are already in the desired key
order. -/
def emitJson : Json → List Char
  | .jstr s => '"' :: escList s.data ++ ['"']
  | .jnum n => n.data
  | .jarr xs => '[' :: emitArr xs ++ [']']
  | .jobj fs => '{' :: emitObj fs ++ ['\x7d']
termination_by structural j => j

def emitArr : List Json → List Char
  | [] => []
  | [x] => emitJson x
  | x :: y :: xs => emitJson x ++ ',' :: emitArr (y :: xs)
termination_by structural xs => xs

def emitObj : List (String × Json) → List Char
  | [] => []
  | [(k, v)] => '"' :: escList k.data ++ '"' :: ':' :: emitJson v
  | (k, v) :: f :: fs =>
    '"' :: escList k.data ++ '"' :: ':' :: emitJson v ++ ',' :: emitObj (f :: fs)
termination_by structural fs => fs

end

/-- The npm package `json-stringify-deterministic` with default options:
compact JSON text with the keys of every object in sorted order — equivalently,
plain compact serialization of the recursively key-sorted value. -/
def stringify (j : Json) : String := String.mk (emitJson (sortKeysRecursive j))

/-- Plain `JSON.stringify`: compact serialization in insertion order
(used by `GetAllAssets` on the accumulated result array). -/
def jsonStringify (j : Json) : String := String.mk (emitJson j)

/-! ### A model of `JSON.parse`

A fuel-based recursive-descent parser for the compact JSON fragment the
encoder emits (strings, numbers, arrays, objects; no whitespace, `true`,
`false` or `null`).  On texts outside this fragment it may conservatively
fail where the host parser would succeed; every text produced by the encoder
is parsed exactly.  The fuel only bounds nesting recursion; `length + 1` fuel
always suffices for an input of that length. -/

def isNumChar (c : Char) : Bool :=
  c.isDigit || c == '.' || c == '-' || c == '+' || c == 'e' || c == 'E'

def isNumStart (c : Char) : Bool := c.isDigit || c == '-'

/-- The value of one hex digit (digits, then lowercase and uppercase
letters, read off the code point `n`). -/
def parseHex (c : Char) : Option Nat :=
  let n := c.toNat
  if 48 ≤ n && n ≤ 57 then some (n - 48)
  else if 97 ≤ n && n ≤ 102 then some (n - 87)
  else if 65 ≤ n && n ≤ 70 then some (n - 55)
  else none

/-- Parse the body of a JSON string (the opening quote already consumed),
decoding escapes; returns the decoded characters and the input after the
closing quote.  The fuel is bookkeeping only: every step consumes at least
one character, so fuel equal to the input length never runs out; callers pass
exactly that. -/
def parseStrBody : Nat → List Char → Option (List Char × List Char)
  | 0, _ => none
  | _ + 1, [] => none
  | fuel + 1, c :: cs =>
    if c == '"' then some ([], cs)
    else if c == '\\' then
      match cs with
      | [] => none
      | e :: cs2 =>
        if e == '"' then (parseStrBody fuel cs2).map (fun p => ('"' :: p.1, p.2))
        else if e == '\\' then (parseStrBody fuel cs2).map (fun p => ('\\' :: p.1, p.2))
        else if e == '/' then (parseStrBody fuel cs2).map (fun p => ('/' :: p.1, p.2))
        else if e == 'b' then (parseStrBody fuel cs2).map (fun p => ('\x08' :: p.1, p.2))
        else if e == 't' then (parseStrBody fuel cs2).map (fun p => ('\x09' :: p.1, p.2))
        else if e == 'n' then (parseStrBody fuel cs2).map (fun p => ('\x0a' :: p.1, p.2))
        else if e == 'f' then (parseStrBody fuel cs2).map (fun p => ('\x0c' :: p.1, p.2))
        else if e == 'r' then (parseStrBody fuel cs2).map (fun p => ('\x0d' :: p.1, p.2))
        else if e == 'u' then
          match cs2 with
          | h1 :: h2 :: h3 :: h4 :: cs3 =>
            match parseHex h1, parseHex h2, parseHex h3, parseHex h4 with
            | some n1, some n2, some n3, some n4 =>
              (parseStrBody fuel cs3).map
                (fun p => (Char.ofNat (n1 * 4096 + n2 * 256 + n3 * 16 + n4) :: p.1, p.2))
            | _, _, _, _ => none
          | _ => none
        else none
    else if c.toNat < 32 then none
    else (parseStrBody fuel cs).map (fun p => (c :: p.1, p.2))
termination_by structural fuel _ => fuel

mutual

def parseVal : Nat → List Char → Option (Json × List Char)
  | 0, _ => none
  | _ + 1, [] => none
  | fuel + 1, c :: cs =>
    if c == '"' then
      (parseStrBody cs.length cs).map (fun p => (.jstr (String.mk p.1), p.2))
    else if c == '[' then
      if cs.head? == some ']' then some (.jarr [], cs.tail)
      else
        (parseVal fuel cs).bind (fun p =>
          (parseTail fuel p.2).map (fun q => (.jarr (p.1 :: q.1), q.2)))
    else if c == '{' then
      if cs.head? == some '\x7d' then some (.jobj [], cs.tail)
      else if cs.head? == some '"' then
        (parseStrBody cs.tail.length cs.tail).bind (fun kp =>
          if kp.2.head? == some ':' then
            (parseVal fuel kp.2.tail).bind (fun vp =>
              (parseFTail fuel vp.2).map (fun q =>
                (.jobj ((String.mk kp.1, vp.1) :: q.1), q.2)))
          else none)
      else none
    else if isNumStart c then
      some (.jnum (String.mk ((c :: cs).takeWhile isNumChar)),
        (c :: cs).dropWhile isNumChar)
    else none
termination_by structural fuel _ => fuel

/-- After one array element: `]` ends the array, `,` starts the next element. -/
def parseTail : Nat → List Char → Option (List Json × List Char)
  | 0, _ => none
  | _ + 1, [] => none
  | fuel + 1, c :: cs =>
    if c == ']' then some ([], cs)
    else if c == ',' then
      (parseVal fuel cs).bind (fun p =>
        (parseTail fuel p.2).map (fun q => (p.1 :: q.1, q.2)))
    else none
termination_by structural fuel _ => fuel

/-- After one object field: closing brace ends the object, `,` starts the
next `"key":value` field. -/
def parseFTail : Nat → List Char → Option (List (String × Json) × List Char)
  | 0, _ => none
  | _ + 1, [] => none
  | fuel + 1, c :: cs =>
    if c == '\x7d' then some ([], cs)
    else if c == ',' then
      if cs.head? == some '"' then
        (parseStrBody cs.tail.length cs.tail).bind (fun kp =>
          if kp.2.head? == some ':' then
            (parseVal fuel kp.2.tail).bind (fun vp =>
              (parseFTail fuel vp.2).map (fun q =>
                ((String.mk kp.1, vp.1) :: q.1, q.2)))
          else none)
      else none
    else none
termination_by structural fuel _ => fuel

end

/-- `JSON.parse`, requiring the whole input to be one JSON value. -/
def parseJson (s : String) : Option Json :=
  match parseVal (s.data.length + 1) s.data with
  | some (j, []) => some j
  | _ => none

/-! ### Well-formedness

`numLitOk` says a string is a plausible numeric literal: nonempty, starting
with a digit or minus sign, all characters drawn from the JSON number
alphabet.  Every text `JSON.stringify` produces for a finite JavaScript
number has this shape.  `wfJson` requires it of every number in a value. -/

def numLitOk (n : String) : Bool :=
  match n.data with
  | [] => false
  | c :: cs => isNumStart c && (c :: cs).all isNumChar

mutual

def wfJson : Json → Bool
  | .jstr _ => true
  | .jnum n => numLitOk n
  | .jarr xs => wfArr xs
  | .jobj fs => wfFields fs
termination_by structural j => j

def wfArr : List Json → Bool
  | [] => true
  | x :: xs => wfJson x && wfArr xs
termination_by structural xs => xs

def wfFields : List (String × Json) → Bool
  | [] => true
  | (_, v) :: fs => wfJson v && wfFields fs
termination_by structural fs => fs

end

mutual

/-- Node count of a JSON value, used to bound the parser fuel. -/
def jsize : Json → Nat
  | .jstr _ => 1
  | .jnum _ => 1
  | .jarr xs => 1 + jsizeArr xs
  | .jobj fs => 1 + jsizeFields fs
termination_by structural j => j

def jsizeArr : List Json → Nat
  | [] => 0
  | x :: xs => 1 + jsize x + jsizeArr xs
termination_by structural xs => xs

def jsizeFields : List (String × Json) → Nat
  | [] => 0
  | (_, v) :: fs => 1 + jsize v + jsizeFields fs
termination_by structural fs => fs

end

/-! ### JavaScript object access -/

/-- Property read on a parsed object (`asset.Owner`); `none` models
`undefined`. -/
def lookupField : List (String × Json) → String → Option Json
  | [], _ => none
  | (k', v) :: fs, k => if k' = k then some v else lookupField fs k

def getField : Json → String → Option Json
  | .jobj fs, k => lookupField fs k
  | _, _ => none

/-- Property write on a JavaScript object: an existing key is updated in
place, a new key is appended in insertion order. -/
def setFieldList : List (String × Json) → String → Json → List (String × Json)
  | [], k, v => [(k, v)]
  | (k', v') :: fs, k, v =>
    if k' = k then (k, v) :: fs else (k', v') :: setFieldList fs k v

def setField : Json → String → Json → Json
  | .jobj fs, k, v => .jobj (setFieldList fs k v)
  | j, _, _ => j

/-! ### The Fabric world state (`ctx.stub`)

The world state is a flat key/value namespace; values are the UTF-8 text of
the stored bytes (`Buffer.from` / `toString` are identity on that text).
`getStateByRange` with two empty bounds — the only range query the source issues — iterates
the whole namespace in the native order of the Runtime, modeled as the list
order. -/

abbrev WorldState := List (String × String)

def getState : WorldState → String → Option String
  | [], _ => none
  | (k', v) :: rest, k => if k' = k then some v else getState rest k

def putState : WorldState → String → String → WorldState
  | [], k, v => [(k, v)]
  | (k', v') :: rest, k, v =>
    if k' = k then (k, v) :: rest else (k', v') :: putState rest k v

def deleteState (s : WorldState) (k : String) : WorldState :=
  s.filter (fun kv => kv.1 != k)

/-- `getStateByRange` with two empty bounds: an open-ended query of all keys in the
namespace, in the scan order of the Runtime. -/
def getStateByRange (s : WorldState) (startKey endKey : String) : List (String × String) := s

/-- The invocation atomicity of the Runtime (spec sections 5 and 7): a failed
invocation is not committed, so the world state it leaves behind is the state
it started from. -/
def commit (s : WorldState) (r : Except String WorldState) : WorldState :=
  match r with
  | .ok s' => s'
  | .error _ => s

/-! ### The sensor-asset contract (`assetTransfer.ts`, first class) -/

/-- The non-key parameters of `CreateAsset` / `UpdateAsset`
(src/src/assetTransfer.ts lines 57–72 and 112–127), bundled in a structure;
numbers are carried as canonical numeric literals. -/
structure AssetArgs where
  snr : String
  vbat : String
  latitude : String
  longitude : String
  gas_resistance : String
  temperature : String
  pressure : String
  humidity : String
  light : String
  gyroscope : List String
  accelerometer : List String
  owner : String

def wfArgs (a : AssetArgs) : Bool :=
  numLitOk a.snr && numLitOk a.vbat && numLitOk a.latitude && numLitOk a.longitude &&
  numLitOk a.gas_resistance && numLitOk a.temperature && numLitOk a.pressure &&
  numLitOk a.humidity && numLitOk a.light &&
  a.gyroscope.all numLitOk && a.accelerometer.all numLitOk

/-- The object literal built by `CreateAsset` (lines 78–92) and `UpdateAsset`
(lines 134–148), in its insertion order. -/
def assetFields (id : String) (a : AssetArgs) : List (String × Json) :=
  [("ID", .jstr id), ("SNR", .jnum a.snr), ("VBAT", .jnum a.vbat),
   ("Latitude", .jnum a.latitude), ("Longitude", .jnum a.longitude),
   ("Gas_resistance", .jnum a.gas_resistance), ("Temperature", .jnum a.temperature),
   ("Pressure", .jnum a.pressure), ("Humidity", .jnum a.humidity),
   ("Light", .jnum a.light), ("Gyroscope", .jarr (a.gyroscope.map .jnum)),
   ("Accelerometer", .jarr (a.accelerometer.map .jnum)), ("Owner", .jstr a.owner)]

def assetJson (id : String) (a : AssetArgs) : Json := .jobj (assetFields id a)

/-- `AssetExists` (lines 169–172): true when the key holds a non-empty
value. -/
def AssetExists (s : WorldState) (id : String) : Bool :=
  match getState s id with
  | some v => decide (0 < v.length)
  | none => false

/-- `CreateAsset` (lines 57–98). -/
def CreateAsset (s : WorldState) (id : String) (a : AssetArgs) :
    Except String WorldState :=
  if AssetExists s id then
    .error ("The asset " ++ id ++ " already exists")
  else
    .ok (putState s id (stringify (sortKeysRecursive (assetJson id a))))

/-- `ReadAsset` (lines 102–108): returns the stored bytes as text,
unmodified. -/
def ReadAsset (s : WorldState) (id : String) : Except String String :=
  match getState s id with
  | none => .error ("The asset " ++ id ++ " does not exist")
  | some v =>
    if v.length = 0 then .error ("The asset " ++ id ++ " does not exist")
    else .ok v

/-- `UpdateAsset` (lines 112–154): full replacement write. -/
def UpdateAsset (s : WorldState) (id : String) (a : AssetArgs) :
    Except String WorldState :=
  if AssetExists s id then
    .ok (putState s id (stringify (sortKeysRecursive (assetJson id a))))
  else
    .error ("The asset " ++ id ++ " does not exist")

/-- `DeleteAsset` (lines 158–164). -/
def DeleteAsset (s : WorldState) (id : String) : Except String WorldState :=
  if AssetExists s id then .ok (deleteState s id)
  else .error ("The asset " ++ id ++ " does not exist")

/-- `TransferAsset` (lines 176–191): read, `JSON.parse`, replace `Owner`,
re-encode, write; returns the previous owner (`none` models `undefined`). -/
def TransferAsset (s : WorldState) (id newOwner : String) :
    Except String (Option Json × WorldState) :=
  match ReadAsset s id with
  | .error e => .error e
  | .ok assetString =>
    match parseJson assetString with
    | none => .error "SyntaxError: Unexpected token in JSON"
    | some asset =>
      let oldOwner := getField asset "Owner"
      let asset2 := setField asset "Owner" (.jstr newOwner)
      .ok (oldOwner, putState s id (stringify (sortKeysRecursive asset2)))

/-- The accumulation loop of `GetAllAssets` (lines 200–214): decode each
value as text, `JSON.parse` it, and fall back to the raw text when the parse
throws. -/
def getAllLoop : List (String × String) → List Json → List Json
  | [], acc => acc
  | (_, v) :: rest, acc =>
    let record := match parseJson v with
      | some j => j
      | none => .jstr v
    getAllLoop rest (acc ++ [record])

/-- `GetAllAssets` (lines 196–216). -/
def GetAllAssets (s : WorldState) : String :=
  jsonStringify (.jarr (getAllLoop (getStateByRange s "" "") []))

/-- The seed record of `InitLedger` (lines 24–38), in its insertion order. -/
def seedAsset : Json :=
  .jobj [("ID", .jstr "basdni7s8acadad8a9d8"), ("SNR", .jnum "0.5"),
    ("VBAT", .jnum "3.3"), ("Latitude", .jnum "45.464664"),
    ("Longitude", .jnum "12.2629"), ("Gas_resistance", .jnum "0.5"),
    ("Temperature", .jnum "31.7"), ("Pressure", .jnum "1000.5"),
    ("Humidity", .jnum "50.5"), ("Light", .jnum "0.5"),
    ("Gyroscope", .jarr [.jnum "0.5", .jnum "0.5", .jnum "0.5"]),
    ("Accelerometer", .jarr [.jnum "0.5", .jnum "0.5", .jnum "0.5"]),
    ("Owner", .jstr "Chidera\x27s IoT device 1")]

/-- `InitLedger` (lines 22–53): the loop over the single seed asset, which
sets the field `docType` to the tag `asset` on it and writes it at its `ID`. -/
def InitLedger (s : WorldState) : WorldState :=
  putState s "basdni7s8acadad8a9d8"
    (stringify (sortKeysRecursive (setField seedAsset "docType" (.jstr "asset"))))

/-! ### The methane-reading contract (`assetTransfer.ts`, second class) -/

namespace Methane

/-- The object literal built by the methane `CreateAsset` (lines 273–276). -/
def methaneJson (timestamp methanelevel : String) : Json :=
  .jobj [("Timestamp", .jstr timestamp), ("Methanelevel", .jnum methanelevel)]

/-- Methane `AssetExists` (lines 331–334). -/
def AssetExists (s : WorldState) (timestamp : String) : Bool :=
  match getState s timestamp with
  | some v => decide (0 < v.length)
  | none => false

/-- Methane `CreateAsset` (lines 263–282). -/
def CreateAsset (s : WorldState) (timestamp methanelevel : String) :
    Except String WorldState :=
  if AssetExists s timestamp then
    .error ("Data for timestamp " ++ timestamp ++ " already exists")
  else
    .ok (putState s timestamp
      (stringify (sortKeysRecursive (methaneJson timestamp methanelevel))))

/-- Methane `ReadAsset` (lines 286–292). -/
def ReadAsset (s : WorldState) (timestamp : String) : Except String String :=
  match getState s timestamp with
  | none => .error ("Data for timestamp " ++ timestamp ++ " does not exist")
  | some v =>
    if v.length = 0 then
      .error ("Data for timestamp " ++ timestamp ++ " does not exist")
    else .ok v

/-- Methane `DeleteAsset` (lines 320–326).  Its existence check reads
`this.AssetExists(ctx, id)`, but no identifier `id` is bound anywhere in the
method — its parameter is `timestamp`.  The TypeScript file does not
typecheck; under plain JavaScript evaluation the unbound identifier throws a
`ReferenceError` before any state access, so the method always fails and the
`deleteState(timestamp)` call is never reached. -/
def DeleteAsset (s : WorldState) (timestamp : String) : Except String WorldState :=
  .error "ReferenceError: id is not defined"

end Methane

theorem string_mk_data : ∀ s : String, String.mk s.data = s
  | ⟨_⟩ => rfl

theorem parseHex_hexDigitChar : ∀ n : Nat, n < 16 → parseHex (hexDigitChar n) = some n := by
  decide

theorem parseStrBody_escList : ∀ (l : List Char) (fuel : Nat) (rest : List Char),
    (escList l ++ '"' :: rest).length ≤ fuel →
    parseStrBody fuel (escList l ++ '"' :: rest) = some (l, rest) := by
  intro l
  induction l with
  | nil =>
    intro fuel rest h
    cases fuel with
    | zero => simp [escList] at h
    | succ f => simp [escList, parseStrBody]
  | cons c l ih =>
    intro fuel rest h
    by_cases h1 : c = '"'
    · subst h1
      cases fuel with
      | zero => simp [escList, escChar] at h
      | succ f =>
        have hf : (escList l ++ '"' :: rest).length ≤ f := by
          simp [escList, escChar] at h; simp; omega
        simp [escList, escChar, parseStrBody, ih _ _ hf]
    · by_cases h2 : c = '\\'
      · subst h2
        cases fuel with
        | zero => simp [escList, escChar] at h
        | succ f =>
          have hf : (escList l ++ '"' :: rest).length ≤ f := by
            simp [escList, escChar] at h; simp; omega
          simp [escList, escChar, parseStrBody, ih _ _ hf]
      · by_cases h3 : c = '\x08'
        · subst h3
          cases fuel with
          | zero => simp [escList, escChar] at h
          | succ f =>
            have hf : (escList l ++ '"' :: rest).length ≤ f := by
              simp [escList, escChar] at h; simp; omega
            simp [escList, escChar, parseStrBody, ih _ _ hf]
        · by_cases h4 : c = '\x09'
          · subst h4
            cases fuel with
            | zero => simp [escList, escChar] at h
            | succ f =>
              have hf : (escList l ++ '"' :: rest).length ≤ f := by
                simp [escList, escChar] at h; simp; omega
              simp [escList, escChar, parseStrBody, ih _ _ hf]
          · by_cases h5 : c = '\x0a'
            · subst h5
              cases fuel with
              | zero => simp [escList, escChar] at h
              | succ f =>
                have hf : (escList l ++ '"' :: rest).length ≤ f := by
                  simp [escList, escChar] at h; simp; omega
                simp [escList, escChar, parseStrBody, ih _ _ hf]
            · by_cases h6 : c = '\x0c'
              · subst h6
                cases fuel with
                | zero => simp [escList, escChar] at h
                | succ f =>
                  have hf : (escList l ++ '"' :: rest).length ≤ f := by
                    simp [escList, escChar] at h; simp; omega
                  simp [escList, escChar, parseStrBody, ih _ _ hf]
              · by_cases h7 : c = '\x0d'
                · subst h7
                  cases fuel with
                  | zero => simp [escList, escChar] at h
                  | succ f =>
                    have hf : (escList l ++ '"' :: rest).length ≤ f := by
                      simp [escList, escChar] at h; simp; omega
                    simp [escList, escChar, parseStrBody, ih _ _ hf]
                · by_cases h8 : c.toNat < 32
                  · cases fuel with
                    | zero => simp [escList, escChar, h1, h2, h3, h4, h5, h6, h7, h8] at h
                    | succ f =>
                      have hf : (escList l ++ '"' :: rest).length ≤ f := by
                        simp [escList, escChar, h1, h2, h3, h4, h5, h6, h7, h8] at h
                        simp; omega
                      have hd : c.toNat / 16 < 16 := by omega
                      have hm : c.toNat % 16 < 16 := by omega
                      have harith : c.toNat / 16 * 16 + c.toNat % 16 = c.toNat := by omega
                      simp [escList, escChar, parseStrBody, h1, h2, h3, h4, h5, h6, h7, h8,
                        parseHex_hexDigitChar _ hd, parseHex_hexDigitChar _ hm,
                        ih _ _ hf, show parseHex '0' = some 0 from rfl]
                      rw [harith, Char.ofNat_toNat]
                  · cases fuel with
                    | zero => simp [escList, escChar, h1, h2, h3, h4, h5, h6, h7, h8] at h
                    | succ f =>
                      have hf : (escList l ++ '"' :: rest).length ≤ f := by
                        simp [escList, escChar, h1, h2, h3, h4, h5, h6, h7, h8] at h
                        simp; omega
                      simp [escList, escChar, parseStrBody, h1, h2, h3, h4, h5, h6, h7, h8,
                        ih _ _ hf]

def notNumHead : List Char → Bool
  | [] => true
  | c :: _ => !(isNumChar c)

/-- Emission of the remainder of an array after its first element: each
further element preceded by a comma, then the closing bracket. -/
def arrTail : List Json → List Char
  | [] => [']']
  | x :: xs => ',' :: emitJson x ++ arrTail xs

/-- Emission of the remainder of an object after its first field. -/
def objTail : List (String × Json) → List Char
  | [] => ['\x7d']
  | (k, v) :: fs => ',' :: '"' :: escList k.data ++ '"' :: ':' :: emitJson v ++ objTail fs

theorem emitArr_eq : ∀ (xs : List Json) (x : Json),
    emitArr (x :: xs) ++ [']'] = emitJson x ++ arrTail xs := by
  intro xs
  induction xs with
  | nil => intro x; simp [emitArr, arrTail]
  | cons y ys ih => intro x; simp only [emitArr, arrTail, ← ih y, List.cons_append,
      List.append_assoc]

theorem emitObj_eq : ∀ (fs : List (String × Json)) (k : String) (v : Json),
    emitObj ((k, v) :: fs) ++ ['\x7d']
      = '"' :: escList k.data ++ '"' :: ':' :: emitJson v ++ objTail fs := by
  intro fs
  induction fs with
  | nil => intro k v; simp [emitObj, objTail]
  | cons f fs ih =>
    intro k v
    obtain ⟨k2, v2⟩ := f
    simp only [emitObj, objTail, List.cons_append, List.append_assoc, ih k2 v2]

theorem takeWhile_numLit : ∀ (l r : List Char),
    (∀ c ∈ l, isNumChar c = true) → notNumHead r = true →
    (l ++ r).takeWhile isNumChar = l ∧ (l ++ r).dropWhile isNumChar = r := by
  intro l r hl hr
  induction l with
  | nil =>
    cases r with
    | nil => simp
    | cons c r =>
      simp only [notNumHead, Bool.not_eq_true'] at hr
      simp [List.takeWhile_cons, List.dropWhile_cons, hr]
  | cons c l ih =>
    have hc : isNumChar c = true := hl c (by simp)
    have ih2 := ih (fun d hd => hl d (by simp [hd]))
    simp [List.takeWhile_cons, List.dropWhile_cons, hc, ih2]

theorem isNumStart_cases (c : Char) (h : isNumStart c = true) :
    ('0' ≤ c ∧ c ≤ '9') ∨ c = '-' := by
  simp only [isNumStart, Bool.or_eq_true, beq_iff_eq, Char.isDigit,
    Bool.and_eq_true, decide_eq_true_eq] at h
  exact h

theorem numStart_ne (c : Char) (h : isNumStart c = true) :
    (c == '"') = false ∧ (c == '[') = false ∧ (c == '{') = false ∧
    (c == ']') = false ∧ (c == '\x7d') = false ∧ (c == ',') = false := by
  rcases isNumStart_cases c h with ⟨h1, h2⟩ | h1
  · refine ⟨?_, ?_, ?_, ?_, ?_, ?_⟩ <;>
    · rw [beq_eq_false_iff_ne]
      intro he
      subst he
      first
        | exact absurd h1 (by decide)
        | exact absurd h2 (by decide)
  · subst h1; decide

theorem parseVal_num (fuel : Nat) (n : String) (rest : List Char)
    (hn : numLitOk n = true) (hr : notNumHead rest = true) :
    parseVal (fuel + 1) (n.data ++ rest) = some (.jnum n, rest) := by
  rcases hd : n.data with _ | ⟨c, cs⟩
  · rw [numLitOk, hd] at hn; simp at hn
  · rw [numLitOk, hd] at hn
    simp only [Bool.and_eq_true, List.all_eq_true] at hn
    obtain ⟨hstart, hall⟩ := hn
    obtain ⟨hne1, hne2, hne3, _, _, _⟩ := numStart_ne c hstart
    have htk := takeWhile_numLit (c :: cs) rest (fun d hd2 => hall d hd2) hr
    simp only [List.cons_append] at htk ⊢
    simp [parseVal, hne1, hne2, hne3, hstart, htk.1, htk.2]
    rw [← hd, string_mk_data]

theorem jsize_pos : ∀ j : Json, 1 ≤ jsize j := by
  intro j
  cases j <;> simp [jsize]

theorem notNumHead_arrTail (xs : List Json) (rest : List Char) :
    notNumHead (arrTail xs ++ rest) = true := by
  cases xs with
  | nil => rfl
  | cons x xs => rfl

theorem notNumHead_objTail (fs : List (String × Json)) (rest : List Char) :
    notNumHead (objTail fs ++ rest) = true := by
  cases fs with
  | nil => rfl
  | cons f fs => obtain ⟨k, v⟩ := f; rfl

theorem some_beq_some (c d : Char) : (some c == some d) = (c == d) := rfl

theorem emit_head (j : Json) (hwf : wfJson j = true) :
    ∃ c cs, emitJson j = c :: cs ∧ (c == ']') = false := by
  cases j with
  | jstr s => exact ⟨'"', _, rfl, by decide⟩
  | jnum n =>
    rcases hd : n.data with _ | ⟨c, cs⟩
    · rw [wfJson, numLitOk, hd] at hwf; simp at hwf
    · rw [wfJson, numLitOk, hd] at hwf
      simp only [Bool.and_eq_true] at hwf
      obtain ⟨_, _, _, h4, _, _⟩ := numStart_ne c hwf.1
      exact ⟨c, cs, by rw [emitJson, hd], h4⟩
  | jarr xs => exact ⟨'[', _, rfl, by decide⟩
  | jobj fs => exact ⟨'{', _, rfl, by decide⟩

theorem jsize_le_emit : ∀ N : Nat,
    (∀ j, jsize j ≤ N → wfJson j = true → jsize j ≤ (emitJson j).length) ∧
    (∀ xs, jsizeArr xs ≤ N → wfArr xs = true → jsizeArr xs ≤ (emitArr xs).length + 1) ∧
    (∀ fs, jsizeFields fs ≤ N → wfFields fs = true →
      jsizeFields fs ≤ (emitObj fs).length + 1) := by
  intro N
  induction N with
  | zero =>
    refine ⟨fun j hj _ => absurd hj (by have := jsize_pos j; omega), ?_, ?_⟩
    · intro xs hx _
      cases xs with
      | nil => simp [jsizeArr]
      | cons x xs => exfalso; simp [jsizeArr] at hx
    · intro fs hf _
      cases fs with
      | nil => simp [jsizeFields]
      | cons f fs =>
        exfalso; obtain ⟨k, v⟩ := f; simp [jsizeFields] at hf
  | succ N ih =>
    obtain ⟨ihJ, ihA, ihF⟩ := ih
    refine ⟨?_, ?_, ?_⟩
    · intro j hj hwf
      cases j with
      | jstr s => simp [jsize, emitJson]
      | jnum n =>
        rcases hd : n.data with _ | ⟨c, cs⟩
        · rw [wfJson, numLitOk, hd] at hwf; simp at hwf
        · simp [jsize, emitJson, hd]
      | jarr xs =>
        rw [jsize] at hj ⊢
        have h1 := ihA xs (by omega) (by rwa [wfJson] at hwf)
        simp only [emitJson, List.length_cons, List.length_append, List.length_cons,
          List.length_nil]
        omega
      | jobj fs =>
        rw [jsize] at hj ⊢
        have h1 := ihF fs (by omega) (by rwa [wfJson] at hwf)
        simp only [emitJson, List.length_cons, List.length_append, List.length_cons,
          List.length_nil]
        omega
    · intro xs hx hwf
      cases xs with
      | nil => simp [jsizeArr]
      | cons x xs =>
        rw [wfArr, Bool.and_eq_true] at hwf
        rw [jsizeArr] at hx ⊢
        have h1 := ihJ x (by have := jsize_pos x; omega) hwf.1
        cases xs with
        | nil => simp only [jsizeArr, emitArr]; omega
        | cons y ys =>
          have h2 := ihA (y :: ys) (by rw [jsizeArr] at hx ⊢; have := jsize_pos y; omega) hwf.2
          simp only [emitArr, List.length_append, List.length_cons]
          omega
    · intro fs hf hwf
      cases fs with
      | nil => simp [jsizeFields]
      | cons f fs =>
        obtain ⟨k, v⟩ := f
        rw [wfFields, Bool.and_eq_true] at hwf
        rw [jsizeFields] at hf ⊢
        have h1 := ihJ v (by have := jsize_pos v; omega) hwf.1
        cases fs with
        | nil =>
          simp only [jsizeFields, emitObj, List.length_cons, List.length_append]
          omega
        | cons g gs =>
          obtain ⟨k2, v2⟩ := g
          have h2 := ihF ((k2, v2) :: gs)
            (by rw [jsizeFields] at hf ⊢; have := jsize_pos v2; omega) hwf.2
          simp only [emitObj, List.length_cons, List.length_append]
          omega

theorem parse_emit : ∀ fuel : Nat,
    (∀ j rest, wfJson j = true → jsize j ≤ fuel → notNumHead rest = true →
      parseVal fuel (emitJson j ++ rest) = some (j, rest)) ∧
    (∀ xs rest, wfArr xs = true → jsizeArr xs + 1 ≤ fuel →
      parseTail fuel (arrTail xs ++ rest) = some (xs, rest)) ∧
    (∀ fs rest, wfFields fs = true → jsizeFields fs + 1 ≤ fuel →
      parseFTail fuel (objTail fs ++ rest) = some (fs, rest)) := by
  intro fuel
  induction fuel with
  | zero =>
    exact ⟨fun j _ _ hsz _ => absurd hsz (by have := jsize_pos j; omega),
      fun xs _ _ h => absurd h (by omega), fun fs _ _ h => absurd h (by omega)⟩
  | succ f ih =>
    obtain ⟨ihV, ihT, ihF⟩ := ih
    refine ⟨?_, ?_, ?_⟩
    · intro j rest hwf hsz hrest
      cases j with
      | jstr s =>
        have hb := parseStrBody_escList s.data (escList s.data ++ '"' :: rest).length rest
          le_rfl
        simp only [List.length_append, List.length_cons] at hb
        simp only [emitJson, List.cons_append, List.append_assoc, List.singleton_append]
        simp [parseVal]
        exact ⟨s.data, by simpa using hb, string_mk_data s⟩
      | jnum n => exact parseVal_num f n rest (by rwa [wfJson] at hwf) hrest
      | jarr xs =>
        cases xs with
        | nil => simp [emitJson, emitArr, parseVal]
        | cons x xs =>
          rw [wfJson, wfArr, Bool.and_eq_true] at hwf
          obtain ⟨hwx, hwxs⟩ := hwf
          obtain ⟨c0, cs0, he, hne⟩ := emit_head x hwx
          rw [jsize, jsizeArr] at hsz
          have h1 := ihV x (arrTail xs ++ rest) hwx (by omega) (notNumHead_arrTail xs rest)
          have h2 := ihT xs rest hwxs (by omega)
          have hemit : emitJson (.jarr (x :: xs)) ++ rest
              = '[' :: (emitJson x ++ (arrTail xs ++ rest)) := by
            rw [emitJson]
            calc '[' :: emitArr (x :: xs) ++ [']'] ++ rest
                = '[' :: ((emitArr (x :: xs) ++ [']']) ++ rest) := by
                  simp [List.append_assoc]
              _ = '[' :: ((emitJson x ++ arrTail xs) ++ rest) := by rw [emitArr_eq xs x]
              _ = '[' :: (emitJson x ++ (arrTail xs ++ rest)) := by
                  simp [List.append_assoc]
          rw [hemit, he]
          rw [he] at h1
          simp only [List.cons_append] at h1 ⊢
          simp [parseVal, hne, some_beq_some, h1, h2]
      | jobj fs =>
        cases fs with
        | nil => simp [emitJson, emitObj, parseVal]
        | cons kv fs =>
          obtain ⟨k, v⟩ := kv
          rw [wfJson, wfFields, Bool.and_eq_true] at hwf
          obtain ⟨hwv, hwfs⟩ := hwf
          rw [jsize, jsizeFields] at hsz
          have h1 := ihV v (objTail fs ++ rest) hwv (by omega) (notNumHead_objTail fs rest)
          have h2 := ihF fs rest hwfs (by omega)
          have hemit : emitJson (.jobj ((k, v) :: fs)) ++ rest
              = '{' :: '"' :: (escList k.data ++ '"' :: ':' :: (emitJson v ++ (objTail fs ++ rest))) := by
            rw [emitJson]
            calc '{' :: emitObj ((k, v) :: fs) ++ ['}'] ++ rest
                = '{' :: ((emitObj ((k, v) :: fs) ++ ['}']) ++ rest) := by
                  simp [List.append_assoc]
              _ = '{' :: (('"' :: escList k.data ++ '"' :: ':' :: emitJson v ++ objTail fs) ++ rest) := by
                  rw [emitObj_eq fs k v]
              _ = '{' :: '"' :: (escList k.data ++ '"' :: ':' :: (emitJson v ++ (objTail fs ++ rest))) := by
                  simp [List.append_assoc]
          rw [hemit]
          have hb := parseStrBody_escList k.data
            (escList k.data ++ '"' :: ':' :: (emitJson v ++ (objTail fs ++ rest))).length
            (':' :: (emitJson v ++ (objTail fs ++ rest))) le_rfl
          simp only [List.length_append, List.length_cons] at hb
          simp [parseVal, hb, h1, h2, string_mk_data]
    · intro xs rest hwf hsz
      cases xs with
      | nil => simp [arrTail, parseTail]
      | cons x xs =>
        rw [wfArr, Bool.and_eq_true] at hwf
        obtain ⟨hwx, hwxs⟩ := hwf
        rw [jsizeArr] at hsz
        have h1 := ihV x (arrTail xs ++ rest) hwx (by omega) (notNumHead_arrTail xs rest)
        have h2 := ihT xs rest hwxs (by omega)
        simp only [arrTail, List.cons_append, List.append_assoc]
        simp [parseTail, h1, h2]
    · intro fs rest hwf hsz
      cases fs with
      | nil => simp [objTail, parseFTail]
      | cons kv fs =>
        obtain ⟨k, v⟩ := kv
        rw [wfFields, Bool.and_eq_true] at hwf
        obtain ⟨hwv, hwfs⟩ := hwf
        rw [jsizeFields] at hsz
        have h1 := ihV v (objTail fs ++ rest) hwv (by omega) (notNumHead_objTail fs rest)
        have h2 := ihF fs rest hwfs (by omega)
        have hb := parseStrBody_escList k.data
          (escList k.data ++ '"' :: ':' :: (emitJson v ++ (objTail fs ++ rest))).length
          (':' :: (emitJson v ++ (objTail fs ++ rest))) le_rfl
        simp only [List.length_append, List.length_cons] at hb
        simp only [objTail, List.cons_append, List.append_assoc]
        simp [parseFTail, hb, h1, h2, string_mk_data]

theorem parseJson_emit (j : Json) (hwf : wfJson j = true) :
    parseJson (String.mk (emitJson j)) = some j := by
  have hlen : jsize j ≤ (emitJson j).length := (jsize_le_emit (jsize j)).1 j le_rfl hwf
  have h := (parse_emit ((emitJson j).length + 1)).1 j [] hwf (by omega) rfl
  simp only [List.append_nil] at h
  simp [parseJson, h]

/-! ### World-state lemmas -/

theorem getState_putState_self (s : WorldState) (k v : String) :
    getState (putState s k v) k = some v := by
  induction s with
  | nil => simp [putState, getState]
  | cons kv rest ih =>
    obtain ⟨k2, v2⟩ := kv
    by_cases h : k2 = k
    · subst h; simp [putState, getState]
    · simp [putState, getState, h, ih]

theorem getState_deleteState_self (s : WorldState) (k : String) :
    getState (deleteState s k) k = none := by
  induction s with
  | nil => rfl
  | cons kv rest ih =>
    obtain ⟨k2, v2⟩ := kv
    by_cases h : k2 = k
    · subst h; simpa [deleteState, List.filter_cons] using ih
    · simpa [deleteState, List.filter_cons, h, getState] using ih

theorem mem_putState : ∀ {s : WorldState} {k v : String} {p : String × String},
    p ∈ putState s k v → p = (k, v) ∨ p ∈ s := by
  intro s k v p
  induction s with
  | nil => intro h; simpa [putState] using h
  | cons kv rest ih =>
    intro h
    obtain ⟨k2, v2⟩ := kv
    by_cases he : k2 = k
    · subst he
      simp only [putState, if_true, List.mem_cons] at h
      rcases h with h | h
      · exact Or.inl h
      · exact Or.inr (List.mem_cons_of_mem _ h)
    · simp only [putState, if_neg he, List.mem_cons] at h
      rcases h with h | h
      · exact Or.inr (by simp [h])
      · rcases ih h with h2 | h2
        · exact Or.inl h2
        · exact Or.inr (List.mem_cons_of_mem _ h2)

theorem mem_deleteState {s : WorldState} {k : String} {p : String × String}
    (h : p ∈ deleteState s k) : p ∈ s :=
  List.mem_of_mem_filter h

theorem stringify_obj_pos (fs : List (String × Json)) :
    0 < (stringify (.jobj fs)).length := by
  simp [stringify, sortKeysRecursive, emitJson, String.length]

/-! ### Determinism of the sorted encoding -/

theorem char_toNat_inj {a b : Char} (h : a.toNat = b.toNat) : a = b := by
  have := Char.ofNat_toNat a
  rw [h, Char.ofNat_toNat] at this
  exact this.symm

theorem lexLeb_cons (x y : Char) (xs ys : List Char) :
    lexLeb (x :: xs) (y :: ys) =
      (if x.toNat < y.toNat then true
       else if y.toNat < x.toNat then false else lexLeb xs ys) := rfl

theorem lexLeb_total : ∀ a b : List Char, lexLeb a b = true ∨ lexLeb b a = true := by
  intro a
  induction a with
  | nil => intro b; left; rfl
  | cons x xs ih =>
    intro b
    cases b with
    | nil => right; rfl
    | cons y ys =>
      rw [lexLeb_cons, lexLeb_cons]
      by_cases h1 : x.toNat < y.toNat
      · left; rw [if_pos h1]
      · by_cases h2 : y.toNat < x.toNat
        · right; rw [if_pos h2]
        · simp only [if_neg h1, if_neg h2]
          exact ih ys

theorem lexLeb_trans : ∀ a b c : List Char,
    lexLeb a b = true → lexLeb b c = true → lexLeb a c = true := by
  intro a
  induction a with
  | nil => intro b c _ _; rfl
  | cons x xs ih =>
    intro b c hab hbc
    cases b with
    | nil => exact absurd hab (by simp [lexLeb])
    | cons y ys =>
      cases c with
      | nil => exact absurd hbc (by simp [lexLeb])
      | cons z zs =>
        rw [lexLeb_cons] at hab hbc ⊢
        by_cases h1 : x.toNat < y.toNat <;> by_cases h2 : y.toNat < z.toNat
        · rw [if_pos (show x.toNat < z.toNat by omega)]
        · rw [if_neg h2] at hbc
          by_cases h3 : z.toNat < y.toNat
          · rw [if_pos h3] at hbc; exact absurd hbc (by simp)
          · rw [if_pos (show x.toNat < z.toNat by omega)]
        · rw [if_neg h1] at hab
          by_cases h3 : y.toNat < x.toNat
          · rw [if_pos h3] at hab; exact absurd hab (by simp)
          · rw [if_pos (show x.toNat < z.toNat by omega)]
        · rw [if_neg h1] at hab
          by_cases h3 : y.toNat < x.toNat
          · rw [if_pos h3] at hab; exact absurd hab (by simp)
          · rw [if_neg h3] at hab
            rw [if_neg h2] at hbc
            by_cases h4 : z.toNat < y.toNat
            · rw [if_pos h4] at hbc; exact absurd hbc (by simp)
            · rw [if_neg h4] at hbc
              rw [if_neg (show ¬x.toNat < z.toNat by omega),
                if_neg (show ¬z.toNat < x.toNat by omega)]
              exact ih ys zs hab hbc

theorem lexLeb_antisymm : ∀ a b : List Char,
    lexLeb a b = true → lexLeb b a = true → a = b := by
  intro a
  induction a with
  | nil =>
    intro b _ hba
    cases b with
    | nil => rfl
    | cons y ys => exact absurd hba (by simp [lexLeb])
  | cons x xs ih =>
    intro b hab hba
    cases b with
    | nil => exact absurd hab (by simp [lexLeb])
    | cons y ys =>
      rw [lexLeb_cons] at hab hba
      by_cases h1 : x.toNat < y.toNat
      · rw [if_neg (show ¬y.toNat < x.toNat by omega), if_pos h1] at hba
        exact absurd hba (by simp)
      · by_cases h2 : y.toNat < x.toNat
        · rw [if_neg h1, if_pos h2] at hab
          exact absurd hab (by simp)
        · rw [if_neg h1, if_neg h2] at hab
          rw [if_neg h2, if_neg h1] at hba
          have hxy : x = y := char_toNat_inj (by omega)
          rw [hxy, ih ys hab hba]

def keyLT (p q : String × Json) : Prop := keyLE p q ∧ p.1 ≠ q.1

theorem string_data_inj {a b : String} (h : a.data = b.data) : a = b := by
  have := string_mk_data a
  rw [h, string_mk_data] at this
  exact this.symm

instance : IsTotal (String × Json) keyLE := ⟨fun p q => lexLeb_total p.1.data q.1.data⟩

instance : IsTrans (String × Json) keyLE := ⟨fun p q r => lexLeb_trans _ _ _⟩

instance : IsAntisymm (String × Json) keyLT :=
  ⟨fun p q h1 h2 => absurd (string_data_inj (lexLeb_antisymm _ _ h1.1 h2.1)) h1.2⟩

theorem sorted_keyLT_insertionSort (l : List (String × Json))
    (h : (l.map Prod.fst).Nodup) :
    List.Sorted keyLT (List.insertionSort keyLE l) := by
  have hs : List.Sorted keyLE (List.insertionSort keyLE l) :=
    List.sorted_insertionSort keyLE l
  have hp : List.Perm (List.insertionSort keyLE l) l := List.perm_insertionSort keyLE l
  have hn : ((List.insertionSort keyLE l).map Prod.fst).Nodup :=
    ((hp.map Prod.fst).nodup_iff).mpr h
  have hne : List.Pairwise (fun p q : String × Json => p.1 ≠ q.1)
      (List.insertionSort keyLE l) := List.pairwise_map.mp hn
  exact hs.and hne

theorem insertionSort_keys_eq (l1 l2 : List (String × Json))
    (hperm : l1.Perm l2) (hnodup : (l1.map Prod.fst).Nodup) :
    List.insertionSort keyLE l1 = List.insertionSort keyLE l2 := by
  have hnodup2 : (l2.map Prod.fst).Nodup := ((hperm.map Prod.fst).nodup_iff).mp hnodup
  exact List.eq_of_perm_of_sorted
    ((List.perm_insertionSort keyLE l1).trans
      (hperm.trans (List.perm_insertionSort keyLE l2).symm))
    (sorted_keyLT_insertionSort l1 hnodup)
    (sorted_keyLT_insertionSort l2 hnodup2)

theorem sortFields_eq_map (l : List (String × Json)) :
    sortFields l = l.map (fun p => (p.1, sortKeysRecursive p.2)) := by
  induction l with
  | nil => rfl
  | cons p l ih => obtain ⟨k, v⟩ := p; simp [sortFields, ih]

theorem sortKeysRecursive_jobj_eq (l1 l2 : List (String × Json))
    (hperm : l1.Perm l2) (hnodup : (l1.map Prod.fst).Nodup) :
    sortKeysRecursive (.jobj l1) = sortKeysRecursive (.jobj l2) := by
  rw [sortKeysRecursive, sortKeysRecursive]
  congr 1
  apply insertionSort_keys_eq
  · rw [sortFields_eq_map, sortFields_eq_map]
    exact hperm.map _
  · rw [sortFields_eq_map, List.map_map]
    exact hnodup

/-! ### The sorted shape of the sensor-asset record -/

/-- `assetFields` after recursive key sorting: the 13 fields in ascending
key order. -/
def sortedAssetFields (id : String) (a : AssetArgs) : List (String × Json) :=
  [("Accelerometer", .jarr (a.accelerometer.map .jnum)),
   ("Gas_resistance", .jnum a.gas_resistance),
   ("Gyroscope", .jarr (a.gyroscope.map .jnum)),
   ("Humidity", .jnum a.humidity), ("ID", .jstr id),
   ("Latitude", .jnum a.latitude), ("Light", .jnum a.light),
   ("Longitude", .jnum a.longitude), ("Owner", .jstr a.owner),
   ("Pressure", .jnum a.pressure), ("SNR", .jnum a.snr),
   ("Temperature", .jnum a.temperature), ("VBAT", .jnum a.vbat)]

theorem sortArr_map_jnum (g : List String) :
    sortArr (g.map .jnum) = g.map .jnum := by
  induction g with
  | nil => rfl
  | cons n g ih => simp [sortArr, sortKeysRecursive, ih]

theorem sortRec_assetJson (id : String) (a : AssetArgs) :
    sortKeysRecursive (assetJson id a) = .jobj (sortedAssetFields id a) := by
  simp [assetJson, assetFields, sortKeysRecursive, sortFields, sortArr_map_jnum,
    List.insertionSort, List.orderedInsert, keyLE, lexLeb, sortedAssetFields]

theorem sortRec_sorted_assetJson (id : String) (a : AssetArgs) :
    sortKeysRecursive (.jobj (sortedAssetFields id a)) = .jobj (sortedAssetFields id a) := by
  simp [sortedAssetFields, sortKeysRecursive, sortFields, sortArr_map_jnum,
    List.insertionSort, List.orderedInsert, keyLE, lexLeb]

theorem wfArr_map_jnum (g : List String) :
    wfArr (g.map .jnum) = g.all numLitOk := by
  induction g with
  | nil => rfl
  | cons n g ih => simp [wfArr, wfJson, ih]

theorem wf_sortedAssetFields (id : String) (a : AssetArgs) (h : wfArgs a = true) :
    wfJson (.jobj (sortedAssetFields id a)) = true := by
  simp only [wfArgs, Bool.and_eq_true] at h
  obtain ⟨⟨⟨⟨⟨⟨⟨⟨⟨⟨h1, h2⟩, h3⟩, h4⟩, h5⟩, h6⟩, h7⟩, h8⟩, h9⟩, h10⟩, h11⟩ := h
  simp [sortedAssetFields, wfJson, wfFields, wfArr_map_jnum,
    h1, h2, h3, h4, h5, h6, h7, h8, h9, h10, h11]

/-- The write of `CreateAsset`/`UpdateAsset` put at the key, parsed back:
exactly the key-sorted asset record. -/
theorem parseJson_asset (id : String) (a : AssetArgs) (h : wfArgs a = true) :
    parseJson (stringify (sortKeysRecursive (assetJson id a)))
      = some (.jobj (sortedAssetFields id a)) := by
  rw [stringify, sortRec_assetJson, sortRec_sorted_assetJson]
  exact parseJson_emit _ (wf_sortedAssetFields id a h)

/-- One entry of the `GetAllAssets` loop: the structured decode of the stored
bytes, or the raw text when the parse throws. -/
def decodeEntry (v : String) : Json :=
  match parseJson v with
  | some j => j
  | none => .jstr v

theorem getAllLoop_eq : ∀ (l : List (String × String)) (acc : List Json),
    getAllLoop l acc = acc ++ l.map (fun kv => decodeEntry kv.2) := by
  intro l
  induction l with
  | nil => intro acc; simp [getAllLoop]
  | cons kv rest ih =>
    intro acc
    obtain ⟨k, v⟩ := kv
    simp [getAllLoop, ih, decodeEntry]

/-! ### Helper facts on the asset shape -/

theorem getField_sorted_owner (k : String) (a : AssetArgs) :
    getField (.jobj (sortedAssetFields k a)) "Owner" = some (.jstr a.owner) := rfl

theorem getField_sorted_docType (k : String) (a : AssetArgs) :
    getField (.jobj (sortedAssetFields k a)) "docType" = none := rfl

theorem setField_sorted_owner (k : String) (a : AssetArgs) (w : String) :
    setField (.jobj (sortedAssetFields k a)) "Owner" (.jstr w)
      = .jobj (sortedAssetFields k { a with owner := w }) := rfl

theorem wfArgs_set_owner (a : AssetArgs) (w : String) :
    wfArgs { a with owner := w } = wfArgs a := rfl

theorem stringify_sorted_asset (k : String) (a : AssetArgs) :
    stringify (sortKeysRecursive (.jobj (sortedAssetFields k a)))
      = stringify (sortKeysRecursive (assetJson k a)) := by
  simp [stringify, sortRec_assetJson, sortRec_sorted_assetJson]

theorem sortFields_assetFields (k : String) (a : AssetArgs) :
    sortFields (assetFields k a) = assetFields k a := by
  simp [assetFields, sortFields, sortKeysRecursive, sortArr_map_jnum]

theorem sortedAssetFields_perm (k : String) (a : AssetArgs) :
    (sortedAssetFields k a).Perm (assetFields k a) := by
  have h2 := sortRec_assetJson k a
  rw [assetJson] at h2
  simp only [sortKeysRecursive] at h2
  injection h2 with h3
  rw [← h3, sortFields_assetFields]
  exact List.perm_insertionSort keyLE _

theorem AssetExists_put_asset (s : WorldState) (k : String) (a : AssetArgs) :
    AssetExists (putState s k (stringify (sortKeysRecursive (assetJson k a)))) k = true := by
  rw [AssetExists, getState_putState_self, sortRec_assetJson]
  have := stringify_obj_pos (sortedAssetFields k a)
  simp [this]

theorem ReadAsset_put_asset (s : WorldState) (k : String) (a : AssetArgs) :
    ReadAsset (putState s k (stringify (sortKeysRecursive (assetJson k a)))) k
      = .ok (stringify (sortKeysRecursive (assetJson k a))) := by
  rw [ReadAsset, getState_putState_self]
  rw [sortRec_assetJson]
  have h := stringify_obj_pos (sortedAssetFields k a)
  simp [Nat.pos_iff_ne_zero.mp h]

def argsA : AssetArgs :=
  { snr := "0.5", vbat := "3.3", latitude := "45.464664", longitude := "12.2629",
    gas_resistance := "0.5", temperature := "31.7", pressure := "1000.5",
    humidity := "50.5", light := "0.5", gyroscope := ["0.5", "0.5", "0.5"],
    accelerometer := ["0.5", "0.5", "0.5"], owner := "A" }

def argsB : AssetArgs := { argsA with owner := "B", snr := "1.5", vbat := "2.8" }

/-! ### The claims -/

/-- C1: for any two record field-value mappings containing identical key/value
pairs but constructed with fields in different insertion orders, encoding them
for a write — `stringify(sortKeysRecursive(·))`, as every write of Create,
Update, Transfer and Bootstrap does — produces byte-identical output. -/
theorem C1_canonical_determinism (l1 l2 : List (String × Json))
    (hperm : l1.Perm l2) (hnodup : (l1.map Prod.fst).Nodup) :
    stringify (sortKeysRecursive (.jobj l1)) = stringify (sortKeysRecursive (.jobj l2)) := by
  rw [sortKeysRecursive_jobj_eq l1 l2 hperm hnodup]

theorem C1_witness :
    ([(("b" : String), Json.jstr "x"), ("a", Json.jnum "1")]).Perm
        [(("a" : String), Json.jnum "1"), ("b", Json.jstr "x")] ∧
    (([(("b" : String), Json.jstr "x"), ("a", Json.jnum "1")]).map Prod.fst).Nodup ∧
    stringify (sortKeysRecursive (.jobj [(("b" : String), Json.jstr "x"), ("a", Json.jnum "1")]))
      = stringify (sortKeysRecursive (.jobj [(("a" : String), Json.jnum "1"), ("b", Json.jstr "x")])) :=
  ⟨List.Perm.swap ("a", Json.jnum "1") ("b", Json.jstr "x") [], by decide,
    C1_canonical_determinism _ _
      (List.Perm.swap ("a", Json.jnum "1") ("b", Json.jstr "x") []) (by decide)⟩

/-- C2 counterexample: the claim fails on `CreateAsset` — the record the
sensor-variant `CreateAsset` stores at a fresh key parses back with no
`docType` field at all. -/
theorem C2_counterexample :
    ((CreateAsset [] "a" argsA).toOption.bind (fun s1 => getState s1 "a")).bind
        (fun v => (parseJson v).map (fun j => getField j "docType"))
      = some none := rfl

/-- C2 (amended): only Bootstrap (`InitLedger`) sets `docType` to the tag
`asset` on the record it stores; the records stored by `CreateAsset` and `UpdateAsset`
contain no `docType` field. -/
theorem C2_docType_writes (s s2 s3 : WorldState) (id : String) (a : AssetArgs)
    (hwf : wfArgs a = true) :
    ((getState (InitLedger s) "basdni7s8acadad8a9d8").bind
        (fun v => (parseJson v).map (fun j => getField j "docType")))
      = some (some (.jstr "asset")) ∧
    (CreateAsset s id a = .ok s2 →
      ((getState s2 id).bind (fun v => (parseJson v).map (fun j => getField j "docType")))
        = some none) ∧
    (UpdateAsset s id a = .ok s3 →
      ((getState s3 id).bind (fun v => (parseJson v).map (fun j => getField j "docType")))
        = some none) := by
  refine ⟨?_, ?_, ?_⟩
  · rw [InitLedger, getState_putState_self]
    rfl
  · intro h
    simp only [CreateAsset] at h
    by_cases he : AssetExists s id = true
    · rw [if_pos he] at h; exact absurd h (by simp)
    · rw [if_neg he] at h
      injection h with h1
      rw [← h1, getState_putState_self]
      simp [parseJson_asset id a hwf, getField_sorted_docType]
  · intro h
    simp only [UpdateAsset] at h
    by_cases he : AssetExists s id = true
    · rw [if_pos he] at h
      injection h with h1
      rw [← h1, getState_putState_self]
      simp [parseJson_asset id a hwf, getField_sorted_docType]
    · rw [if_neg he] at h; exact absurd h (by simp)

theorem C2_witness :
    wfArgs argsA = true ∧
    (((getState (InitLedger []) "basdni7s8acadad8a9d8").bind
        (fun v => (parseJson v).map (fun j => getField j "docType")))
      = some (some (.jstr "asset")) ∧
    (CreateAsset [] "a" argsA
        = .ok (putState [] "a" (stringify (sortKeysRecursive (assetJson "a" argsA)))) →
      ((getState (putState [] "a" (stringify (sortKeysRecursive (assetJson "a" argsA)))) "a").bind
          (fun v => (parseJson v).map (fun j => getField j "docType")))
        = some none) ∧
    (UpdateAsset [] "a" argsA = .ok [] →
      ((getState ([] : WorldState) "a").bind
          (fun v => (parseJson v).map (fun j => getField j "docType")))
        = some none)) :=
  ⟨by decide, C2_docType_writes []
    (putState [] "a" (stringify (sortKeysRecursive (assetJson "a" argsA)))) [] "a" argsA
    (by decide)⟩

/-- C3 counterexample: the claim fails — after `Create(k, f); Read(k)` the
returned text parses to a record with no `docType` field, so the decoded
mapping is not `f` plus the `docType` tag. -/
theorem C3_counterexample :
    ((CreateAsset [] "dev" argsA).bind (fun s1 => ReadAsset s1 "dev")).toOption.bind
        (fun v => (parseJson v).map (fun j => getField j "docType"))
      = some none := rfl

/-- C3 (amended): for every key `k` absent from the keyspace and well-formed
field set `f`, `Create(k, f); Read(k)` succeeds and the returned text decodes
to a mapping equal to the record built from `f` (the thirteen fields,
including `ID = k`) — with no `docType` field added. -/
theorem C3_create_read (s : WorldState) (k : String) (a : AssetArgs)
    (hwf : wfArgs a = true) (habsent : AssetExists s k = false) :
    (CreateAsset s k a).bind (fun s1 => ReadAsset s1 k)
        = .ok (stringify (sortKeysRecursive (assetJson k a))) ∧
    parseJson (stringify (sortKeysRecursive (assetJson k a)))
        = some (.jobj (sortedAssetFields k a)) ∧
    (sortedAssetFields k a).Perm (assetFields k a) ∧
    getField (.jobj (sortedAssetFields k a)) "docType" = none := by
  refine ⟨?_, parseJson_asset k a hwf, sortedAssetFields_perm k a,
    getField_sorted_docType k a⟩
  simp only [CreateAsset, habsent, Bool.false_eq_true, if_false, Except.bind]
  exact ReadAsset_put_asset s k a

theorem C3_witness :
    wfArgs argsA = true ∧ AssetExists [] "dev" = false ∧
    ((CreateAsset [] "dev" argsA).bind (fun s1 => ReadAsset s1 "dev")
        = .ok (stringify (sortKeysRecursive (assetJson "dev" argsA))) ∧
    parseJson (stringify (sortKeysRecursive (assetJson "dev" argsA)))
        = some (.jobj (sortedAssetFields "dev" argsA)) ∧
    (sortedAssetFields "dev" argsA).Perm (assetFields "dev" argsA) ∧
    getField (.jobj (sortedAssetFields "dev" argsA)) "docType" = none) :=
  ⟨by decide, rfl, C3_create_read [] "dev" argsA (by decide) rfl⟩

/-- C4: a second `CreateAsset` at an occupied key fails with the
AlreadyExists error, and — by the invocation atomicity of the Runtime — the
keyspace after the failed call is exactly the keyspace after the first
call. -/
theorem C4_no_double_create (s s1 : WorldState) (k : String) (a1 a2 : AssetArgs)
    (hc : CreateAsset s k a1 = .ok s1) :
    CreateAsset s1 k a2 = .error ("The asset " ++ k ++ " already exists") ∧
    commit s1 (CreateAsset s1 k a2) = s1 := by
  simp only [CreateAsset] at hc
  by_cases he : AssetExists s k = true
  · rw [if_pos he] at hc; exact absurd hc (by simp)
  · rw [if_neg he] at hc
    injection hc with h1
    have hex : AssetExists s1 k = true := by
      rw [← h1]; exact AssetExists_put_asset s k a1
    constructor
    · rw [CreateAsset, if_pos hex]
    · simp only [CreateAsset, if_pos hex, commit]

theorem C4_witness :
    (CreateAsset [] "k" argsA
        = .ok (putState [] "k" (stringify (sortKeysRecursive (assetJson "k" argsA))))) ∧
    (CreateAsset (putState [] "k" (stringify (sortKeysRecursive (assetJson "k" argsA)))) "k" argsB
        = .error ("The asset " ++ "k" ++ " already exists") ∧
    commit (putState [] "k" (stringify (sortKeysRecursive (assetJson "k" argsA))))
        (CreateAsset (putState [] "k" (stringify (sortKeysRecursive (assetJson "k" argsA)))) "k" argsB)
      = putState [] "k" (stringify (sortKeysRecursive (assetJson "k" argsA)))) :=
  ⟨rfl, C4_no_double_create [] _ "k" argsA argsB rfl⟩

/-- C5: for a sensor-variant record created at key `k` with owner `A`,
`TransferAsset(k, B)` returns the previous owner `A` and writes back the
record with only the `Owner` field changed; a subsequent `ReadAsset(k)`
returns that record, which decodes to the original fields with
`Owner = B`. -/
theorem C5_transfer_owner (s s1 : WorldState) (k newOwner : String) (a : AssetArgs)
    (hwf : wfArgs a = true) (hc : CreateAsset s k a = .ok s1) :
    TransferAsset s1 k newOwner
      = .ok (some (.jstr a.owner),
          putState s1 k (stringify (sortKeysRecursive (assetJson k { a with owner := newOwner })))) ∧
    ReadAsset (putState s1 k
          (stringify (sortKeysRecursive (assetJson k { a with owner := newOwner })))) k
      = .ok (stringify (sortKeysRecursive (assetJson k { a with owner := newOwner }))) ∧
    parseJson (stringify (sortKeysRecursive (assetJson k { a with owner := newOwner })))
      = some (.jobj (sortedAssetFields k { a with owner := newOwner })) := by
  simp only [CreateAsset] at hc
  by_cases he : AssetExists s k = true
  · rw [if_pos he] at hc; exact absurd hc (by simp)
  · rw [if_neg he] at hc
    injection hc with h1
    have hread : ReadAsset s1 k = .ok (stringify (sortKeysRecursive (assetJson k a))) := by
      rw [← h1]; exact ReadAsset_put_asset s k a
    refine ⟨?_, ?_, parseJson_asset k _ (by rw [wfArgs_set_owner]; exact hwf)⟩
    · simp only [TransferAsset, hread, parseJson_asset k a hwf, getField_sorted_owner,
        setField_sorted_owner, stringify_sorted_asset]
    · exact ReadAsset_put_asset s1 k { a with owner := newOwner }

theorem C5_witness :
    wfArgs argsA = true ∧
    CreateAsset [] "dev-1" argsA
      = .ok (putState [] "dev-1" (stringify (sortKeysRecursive (assetJson "dev-1" argsA)))) ∧
    (TransferAsset (putState [] "dev-1" (stringify (sortKeysRecursive (assetJson "dev-1" argsA))))
        "dev-1" "Y"
      = .ok (some (.jstr argsA.owner),
          putState (putState [] "dev-1" (stringify (sortKeysRecursive (assetJson "dev-1" argsA))))
            "dev-1" (stringify (sortKeysRecursive (assetJson "dev-1" { argsA with owner := "Y" }))))) :=
  ⟨by decide, rfl,
    (C5_transfer_owner [] _ "dev-1" "Y" argsA (by decide) rfl).1⟩

/-- C6: after `Create(k, f1)`, `Update(k, f2)` succeeds and fully replaces the
stored record: `Read(k)` returns exactly the encoding of the record built from
`f2`, whose decode is exactly the `f2` record (no residual fields from `f1`);
and `Update` on an absent key fails with the NotFound error. -/
theorem C6_update_replaces (s s1 : WorldState) (k : String) (a1 a2 : AssetArgs)
    (hwf2 : wfArgs a2 = true) (hc : CreateAsset s k a1 = .ok s1) :
    UpdateAsset s1 k a2
      = .ok (putState s1 k (stringify (sortKeysRecursive (assetJson k a2)))) ∧
    ReadAsset (putState s1 k (stringify (sortKeysRecursive (assetJson k a2)))) k
      = .ok (stringify (sortKeysRecursive (assetJson k a2))) ∧
    parseJson (stringify (sortKeysRecursive (assetJson k a2)))
      = some (.jobj (sortedAssetFields k a2)) ∧
    (∀ s2 : WorldState, AssetExists s2 k = false →
      UpdateAsset s2 k a2 = .error ("The asset " ++ k ++ " does not exist")) := by
  simp only [CreateAsset] at hc
  by_cases he : AssetExists s k = true
  · rw [if_pos he] at hc; exact absurd hc (by simp)
  · rw [if_neg he] at hc
    injection hc with h1
    have hex : AssetExists s1 k = true := by
      rw [← h1]; exact AssetExists_put_asset s k a1
    refine ⟨?_, ReadAsset_put_asset s1 k a2, parseJson_asset k a2 hwf2, ?_⟩
    · rw [UpdateAsset, if_pos hex]
    · intro s2 habs
      rw [UpdateAsset, habs]
      simp

theorem C6_witness :
    wfArgs argsB = true ∧
    CreateAsset [] "k" argsA
      = .ok (putState [] "k" (stringify (sortKeysRecursive (assetJson "k" argsA)))) ∧
    (UpdateAsset (putState [] "k" (stringify (sortKeysRecursive (assetJson "k" argsA)))) "k" argsB
      = .ok (putState (putState [] "k" (stringify (sortKeysRecursive (assetJson "k" argsA))))
          "k" (stringify (sortKeysRecursive (assetJson "k" argsB))))) :=
  ⟨by decide, rfl, (C6_update_replaces [] _ "k" argsA argsB (by decide) rfl).1⟩

/-- C7: the claim is right about the intent, and right on the sensor variant,
but the methane-variant `DeleteAsset` is broken: its existence check reads the
unbound identifier `id` instead of its `timestamp` parameter, so it throws a
ReferenceError even when the record is present, and the key is never
deleted. -/
theorem C7_methane_delete_broken :
    Methane.DeleteAsset
        [("00:00:00", stringify (sortKeysRecursive (Methane.methaneJson "00:00:00" "0")))]
        "00:00:00"
      = .error "ReferenceError: id is not defined" ∧
    Methane.AssetExists
        [("00:00:00", stringify (sortKeysRecursive (Methane.methaneJson "00:00:00" "0")))]
        "00:00:00" = true := by
  constructor
  · rfl
  · rfl

/-- C8: `GetAllAssets` is total (it never fails); on every keyspace state it
returns the JSON array holding exactly one entry per stored key, in scan
order, each entry being the structured decode of the bytes at that key with a
per-record fallback to the raw text. -/
theorem C8_getall_complete (s : WorldState) :
    GetAllAssets s = jsonStringify (.jarr (s.map (fun kv => decodeEntry kv.2))) ∧
    (getAllLoop (getStateByRange s "" "") []).length = s.length := by
  constructor
  · rw [GetAllAssets, getStateByRange, getAllLoop_eq]
    simp
  · rw [getStateByRange, getAllLoop_eq]
    simp

/-- The canonical-form invariant of the keyspace: every stored value is the
deterministic encoding of some record value. -/
def CanonicalState (s : WorldState) : Prop :=
  ∀ p ∈ s, ∃ m : Json, p.2 = stringify (sortKeysRecursive m)

/-- C9: every operation preserves the invariant that the keyspace only holds
compact, recursively key-sorted deterministic encodings: every byte string any
operation writes is `stringify(sortKeysRecursive(m))` for some record `m`
(Delete trivially preserves the invariant). -/
theorem C9_canonical_invariant (s s2 : WorldState) (k w : String) (a : AssetArgs)
    (hs : CanonicalState s) :
    CanonicalState (InitLedger s) ∧
    (CreateAsset s k a = .ok s2 → CanonicalState s2) ∧
    (UpdateAsset s k a = .ok s2 → CanonicalState s2) ∧
    (∀ r, TransferAsset s k w = .ok (r, s2) → CanonicalState s2) ∧
    (DeleteAsset s k = .ok s2 → CanonicalState s2) := by
  refine ⟨?_, ?_, ?_, ?_, ?_⟩
  · intro p hp
    rcases mem_putState hp with h | h
    · exact ⟨_, by rw [h]⟩
    · exact hs p h
  · intro h p hp
    simp only [CreateAsset] at h
    by_cases he : AssetExists s k = true
    · rw [if_pos he] at h; exact absurd h (by simp)
    · rw [if_neg he] at h
      injection h with h1
      rw [← h1] at hp
      rcases mem_putState hp with h2 | h2
      · exact ⟨_, by rw [h2]⟩
      · exact hs p h2
  · intro h p hp
    simp only [UpdateAsset] at h
    by_cases he : AssetExists s k = true
    · rw [if_pos he] at h
      injection h with h1
      rw [← h1] at hp
      rcases mem_putState hp with h2 | h2
      · exact ⟨_, by rw [h2]⟩
      · exact hs p h2
    · rw [if_neg he] at h; exact absurd h (by simp)
  · intro r h p hp
    rw [TransferAsset] at h
    rcases hrd : ReadAsset s k with e | str
    · rw [hrd] at h; exact absurd h (by simp)
    · rw [hrd] at h
      dsimp only at h
      rcases hpj : parseJson str with _ | asset
      · rw [hpj] at h; exact absurd h (by simp)
      · rw [hpj] at h
        dsimp only at h
        simp only [Except.ok.injEq, Prod.mk.injEq] at h
        rw [← h.2] at hp
        rcases mem_putState hp with h2 | h2
        · exact ⟨_, by rw [h2]⟩
        · exact hs p h2
  · intro h p hp
    simp only [DeleteAsset] at h
    by_cases he : AssetExists s k = true
    · rw [if_pos he] at h
      injection h with h1
      rw [← h1] at hp
      exact hs p (mem_deleteState hp)
    · rw [if_neg he] at h; exact absurd h (by simp)

theorem C9_witness :
    CanonicalState [] ∧
    (CanonicalState (InitLedger []) ∧
    (CreateAsset [] "k" argsA = .ok [] → CanonicalState []) ∧
    (UpdateAsset [] "k" argsA = .ok [] → CanonicalState []) ∧
    (∀ r, TransferAsset [] "k" "w" = .ok (r, []) → CanonicalState []) ∧
    (DeleteAsset [] "k" = .ok [] → CanonicalState [])) :=
  ⟨fun p hp => absurd hp (List.not_mem_nil p),
    C9_canonical_invariant [] [] "k" "w" argsA (fun p hp => absurd hp (List.not_mem_nil p))⟩

/-- C10: for a key present in the keyspace, `ReadAsset` returns exactly the
stored byte string as text, verbatim — in particular the value most recently
written by `putState` — performing no structured decode or re-encoding. -/
theorem C10_read_verbatim (s : WorldState) (k v : String) (hv : 0 < v.length) :
    (getState s k = some v → ReadAsset s k = .ok v) ∧
    ReadAsset (putState s k v) k = .ok v := by
  have hne : v.length ≠ 0 := Nat.pos_iff_ne_zero.mp hv
  constructor
  · intro h
    rw [ReadAsset, h]
    simp [hne]
  · rw [ReadAsset, getState_putState_self]
    simp [hne]

theorem C10_witness :
    0 < ("payload" : String).length ∧
    ((getState [] "k" = some "payload" → ReadAsset [] "k" = .ok "payload") ∧
      ReadAsset (putState [] "k" "payload") "k" = .ok "payload") :=
  ⟨by decide, C10_read_verbatim [] "k" "payload" (by decide)⟩
